import Mathlib

/-! Shallow embedding of the `wpm` proxy-toggle tool (main.go).

File contents are modelled as `List Char`.  Go's `strings.Split(s, "\n")`
and `strings.Join(ls, "\n")` are modelled by `splitOnNl` / `joinNl`;
`strings.TrimRight(line, "\r")` by `trimRightCR`; `strings.TrimSpace` by
`trimSpace` (Go `unicode.IsSpace` restricted to its Latin-1 range, which
covers every rune these config files use); `strings.HasPrefix` by
`List.isPrefixOf`.  The VS Code settings map is modelled as an association
list with Go-map (lookup) semantics, and `json.Unmarshal` as an abstract
all-or-nothing parser parameter. -/

/-- Environment flag `ENV_SYSTEM = 1 << iota` (main.go constant block). -/
def ENV_SYSTEM : Nat := 1

/-- Environment flag `ENV_POWERSHELL = 2`. -/
def ENV_POWERSHELL : Nat := 2

/-- Environment flag `ENV_VSCODE = 4`. -/
def ENV_VSCODE : Nat := 4

/-- Environment flag `ENV_NPM = 8`. -/
def ENV_NPM : Nat := 8

/-- Model of Go `strings.Split(s, "\n")` on char lists: splits at every
newline; the empty content yields the single empty line, as in Go. -/
def splitOnNl : List Char → List (List Char)
  | [] => [[]]
  | c :: cs =>
    if c = '\n' then [] :: splitOnNl cs
    else
      match splitOnNl cs with
      | [] => [[c]]
      | l :: ls => (c :: l) :: ls

/-- Model of Go `strings.Join(ls, "\n")` on char lists. -/
def joinNl : List (List Char) → List Char
  | [] => []
  | [l] => l
  | l :: ls => l ++ '\n' :: joinNl ls

/-- A chunk of text that contains no newline character. -/
def nlFree (l : List Char) : Bool := l.all (fun c => c != '\n')

/-- Go `unicode.IsSpace` on the Latin-1 range: '\t', '\n', '\v', '\f',
'\r', ' ', U+0085 (NEL), U+00A0 (NBSP). -/
def isGoSpace (c : Char) : Bool :=
  c == '\t' || c == '\n' || c == '\x0b' || c == '\x0c' || c == '\r' ||
    c == ' ' || c == '\x85' || c == '\xa0'

/-- Model of Go `strings.TrimSpace`: drop whitespace from both ends
(right end first; the order does not affect the result). -/
def trimSpace (l : List Char) : List Char :=
  ((l.reverse.dropWhile isGoSpace).reverse).dropWhile isGoSpace

/-- Model of Go `strings.TrimRight(line, "\r")`: drop every trailing
carriage return. -/
def trimRightCR (l : List Char) : List Char :=
  (l.reverse.dropWhile (fun c => c == '\r')).reverse

/-- The managed-block sentinel test of `updatePowerShellProfile`:
`strings.HasPrefix(line, "# Proxy Setting")`. -/
def isSentinelLine (l : List Char) : Bool :=
  List.isPrefixOf ("# Proxy Setting".toList) l

/-- The filter pass of `updatePowerShellProfile`: scan the lines tracking
an `inBlock` flag that every sentinel-prefixed line toggles; sentinel
lines and lines inside the block are dropped, kept lines get their
trailing carriage returns trimmed. -/
def removeProxyBlock : Bool → List (List Char) → List (List Char)
  | _, [] => []
  | inBlock, l :: ls =>
    if isSentinelLine l then removeProxyBlock (!inBlock) ls
    else if inBlock then removeProxyBlock inBlock ls
    else trimRightCR l :: removeProxyBlock inBlock ls

/-- The lines the filter pass of `updatePowerShellProfile` keeps, before
carriage-return trimming (the "non-managed" lines of the input under the
toggle-scan semantics). -/
def keptOutsideBlock : Bool → List (List Char) → List (List Char)
  | _, [] => []
  | inBlock, l :: ls =>
    if isSentinelLine l then keptOutsideBlock (!inBlock) ls
    else if inBlock then keptOutsideBlock inBlock ls
    else l :: keptOutsideBlock inBlock ls

/-- Separator policy of `updatePowerShellProfile`: append one blank line
when the file is non-empty and does not already end with a blank line
(`if len(newLines) > 0 && newLines[len(newLines)-1] != ""`). -/
def addSeparator (ls : List (List Char)) : List (List Char) :=
  match ls.getLast? with
  | none => ls
  | some l => if l = [] then ls else ls ++ [[]]

/-- The six lines of the managed proxy block; their newline-join is
exactly the `fmt.Sprintf` template of `updatePowerShellProfile` with the
server spliced into the second line. -/
def proxyBlockLines (proxyServer : List Char) : List (List Char) :=
  ["# Proxy Setting".toList,
   "$proxy = \"http://".toList ++ proxyServer ++ "\"".toList,
   "$env:HTTP_PROXY = $proxy".toList,
   "$env:HTTPS_PROXY = $proxy".toList,
   "[System.Net.WebRequest]::DefaultWebProxy = New-Object System.Net.WebProxy($proxy)".toList,
   "# Proxy Setting".toList]

/-- The managed proxy block as one chunk of text, as built by
`fmt.Sprintf` in `updatePowerShellProfile`. -/
def proxyBlock (proxyServer : List Char) : List Char :=
  joinNl (proxyBlockLines proxyServer)

/-- Pure core of `updatePowerShellProfile` (main.go, robust version):
filter out any existing proxy block, then when enabling append a blank
separator if needed and the fresh block, and join the lines back. -/
def updatePowerShellProfile (proxyServer : List Char) (enable : Bool)
    (fileContent : List Char) : List Char :=
  let newLines := removeProxyBlock false (splitOnNl fileContent)
  if enable then joinNl (addSeparator newLines ++ [proxyBlock proxyServer])
  else joinNl newLines

/-- The keep condition of `setNpmProxy`'s filter pass: keep a line iff its
trimmed form does not start with "proxy=" and is not blank. -/
def keepNpm (l : List Char) : Bool :=
  !(List.isPrefixOf ("proxy=".toList) (trimSpace l)) && !((trimSpace l).isEmpty)

/-- The proxy line `fmt.Sprintf("proxy=http://%s", proxyServer)` that
`setNpmProxy` appends when enabling. -/
def npmProxyLine (proxyServer : List Char) : List Char :=
  "proxy=http://".toList ++ proxyServer

/-- The filter pass of `setNpmProxy`: drop proxy lines and blank lines,
trim trailing carriage returns from the kept lines. -/
def npmFilterLines (lines : List (List Char)) : List (List Char) :=
  (lines.filter keepNpm).map trimRightCR

/-- Pure core of `setNpmProxy` (main.go): filter, optionally append the
proxy line, join with newlines, and add a trailing newline when the
result is non-empty. -/
def setNpmProxy (proxyServer : List Char) (enable : Bool)
    (fileContent : List Char) : List Char :=
  let newLines := npmFilterLines (splitOnNl fileContent)
  let newLines := if enable then newLines ++ [npmProxyLine proxyServer] else newLines
  if newLines = [] then [] else joinNl newLines ++ ['\n']

/-- The character scan of `parseEnvironmentSelection`: OR in one flag per
'1'/'2'/'3'/'4' character, ignore every other character. -/
def envScanFlags (input : List Char) : Nat :=
  input.foldl
    (fun acc c =>
      if c = '1' then acc ||| ENV_SYSTEM
      else if c = '2' then acc ||| ENV_POWERSHELL
      else if c = '3' then acc ||| ENV_VSCODE
      else if c = '4' then acc ||| ENV_NPM
      else acc)
    0

/-- Model of `parseEnvironmentSelection` (main.go): trim the input; empty
or case-insensitive "a" selects all environments, otherwise scan the
characters. -/
def parseEnvironmentSelection (input : List Char) : Nat :=
  let input := trimSpace input
  if input = [] ∨ input.map Char.toLower = ['a'] then
    ENV_SYSTEM ||| ENV_POWERSHELL ||| ENV_VSCODE ||| ENV_NPM
  else envScanFlags input

/-- JSON-like values of a VS Code settings document (enough structure for
the settings map; nested documents are not needed by the tool). -/
inductive JsonValue where
  | jnull : JsonValue
  | jbool : Bool → JsonValue
  | jnum : Int → JsonValue
  | jstr : List Char → JsonValue
deriving DecidableEq

/-- A parsed settings document: the top-level JSON object as an
association list with Go-map (first-match lookup) semantics. -/
abbrev SettingsDoc : Type := List (List Char × JsonValue)

/-- The reserved VS Code settings key "http.proxy". -/
def httpProxyKey : List Char := "http.proxy".toList

/-- Go-map lookup on a settings document (first matching key). -/
def lookupKey : SettingsDoc → List Char → Option JsonValue
  | [], _ => none
  | (k, v) :: rest, key => if k = key then some v else lookupKey rest key

/-- Pure core of `setVSCodeProxy` (main.go): set the reserved key to
`"http://" + proxyServer` when enabling, delete it when disabling, leave
every other key untouched.  Go-map update/delete are modelled on the
association list as remove-then-append / remove. -/
def setVSCodeProxy (proxyServer : List Char) (enable : Bool)
    (settings : SettingsDoc) : SettingsDoc :=
  let others := settings.filter (fun p => !(p.1 = httpProxyKey : Bool))
  if enable then
    others ++ [(httpProxyKey, JsonValue.jstr ("http://".toList ++ proxyServer))]
  else others

/-- The settings-loading prelude of `setVSCodeProxy`: a missing file, an
empty file, or a file the parser rejects all leave the freshly-made map
empty.  `json.Unmarshal` is modelled as an all-or-nothing parser whose
error is discarded (`_ = json.Unmarshal(...)`), leaving the map as
initialised. -/
def loadVSCodeSettings (parseDoc : List Char → Option SettingsDoc)
    (file : Option (List Char)) : SettingsDoc :=
  match file with
  | none => []
  | some data =>
    if data.isEmpty then []
    else
      match parseDoc data with
      | some m => m
      | none => []

/-- The reconciliation decision of the toggle-mode `main` (both toggle
variants share it). -/
inductive ProxyAction where
  | Enable : ProxyAction
  | Disable : ProxyAction
  | Update : ProxyAction
deriving DecidableEq

/-- Toggle-mode decision of `main`: build the candidate `gateway:10808`;
an active proxy equal to the candidate is disabled, an active proxy
different from it is updated to the candidate, an inactive proxy is
enabled to the candidate.  Returns the action and the server string
written to the registry. -/
def reconcileToggle (currentProxy gateway : List Char) :
    ProxyAction × List Char :=
  let proxyServer := gateway ++ ":10808".toList
  if currentProxy ≠ [] then
    if currentProxy = proxyServer then (ProxyAction.Disable, [])
    else (ProxyAction.Update, proxyServer)
  else (ProxyAction.Enable, proxyServer)

/-- Display name of the System Registry surface. -/
def sysName : List Char := "System Registry".toList

/-- Display name of the PowerShell Profile surface. -/
def psName : List Char := "PowerShell Profile".toList

/-- Display name of the VS Code surface. -/
def vsName : List Char := "VS Code".toList

/-- Display name of the npm surface. -/
def npmName : List Char := "npm".toList

/-- One surface of `applyProxySettings`: when the surface is selected by
the mask, record the setter's outcome — the error message
`name + ": " + err` appended to the error list, or the name appended to
the success list. -/
def surfStep (mask flag : Nat) (name : List Char) (r : Option (List Char))
    (acc : List (List Char) × List (List Char)) :
    List (List Char) × List (List Char) :=
  if mask &&& flag ≠ 0 then
    match r with
    | some e => (acc.1 ++ [name ++ ": ".toList ++ e], acc.2)
    | none => (acc.1, acc.2 ++ [name])
  else acc

/-- Pure core of `applyProxySettings` (main.go): attempt the four surfaces
in order System, PowerShell, VS Code, npm, collecting per-surface errors
and successes.  The setters' outcomes are the `Option` arguments
(`some e` = the setter returned error `e`, `none` = success); their file
and registry effects live outside this embedding. -/
def applyProxySettings (mask : Nat) (rSys rPS rVS rNpm : Option (List Char)) :
    List (List Char) × List (List Char) :=
  surfStep mask ENV_NPM npmName rNpm
    (surfStep mask ENV_VSCODE vsName rVS
      (surfStep mask ENV_POWERSHELL psName rPS
        (surfStep mask ENV_SYSTEM sysName rSys ([], []))))

/-- Byte-equivalence "modulo the single blank-separator-line policy":
equal, or equal up to one trailing blank line on either side. -/
def eqUpToTrailingBlank (a b : List Char) : Prop :=
  a = b ∨ a = b ++ ['\n'] ∨ b = a ++ ['\n']

instance (a b : List Char) : Decidable (eqUpToTrailingBlank a b) :=
  inferInstanceAs (Decidable (_ ∨ _ ∨ _))

/-- The value of the toggle flag after the filter pass of
`updatePowerShellProfile` has scanned a list of lines. -/
def sentState (b : Bool) (ls : List (List Char)) : Bool :=
  ls.foldl (fun st l => if isSentinelLine l then !st else st) b

/-- The error entries one surface of `applyProxySettings` contributes. -/
def errPart (mask flag : Nat) (name : List Char) (r : Option (List Char)) :
    List (List Char) :=
  if mask &&& flag ≠ 0 then
    match r with
    | some e => [name ++ ": ".toList ++ e]
    | none => []
  else []

/-- The success entries one surface of `applyProxySettings` contributes. -/
def succPart (mask flag : Nat) (name : List Char) (r : Option (List Char)) :
    List (List Char) :=
  if mask &&& flag ≠ 0 then
    match r with
    | some _ => []
    | none => [name]
  else []

/-! Infrastructure lemmas about line splitting and joining. -/

theorem splitOnNl_ne_nil (a : List Char) : splitOnNl a ≠ [] := by
  match a with
  | [] => simp [splitOnNl]
  | c :: cs =>
    simp only [splitOnNl]
    by_cases h : c = '\n'
    · simp [h]
    · simp only [h, if_false]
      cases hcs : splitOnNl cs <;> simp

theorem splitOnNl_append_nl (a b : List Char) :
    splitOnNl (a ++ '\n' :: b) = splitOnNl a ++ splitOnNl b := by
  induction a with
  | nil => simp [splitOnNl]
  | cons c cs ih =>
    by_cases h : c = '\n'
    · simp only [List.cons_append, splitOnNl, h, if_true, List.append_eq]
      rw [ih]
    · simp only [List.cons_append, splitOnNl, h, if_false, List.append_eq]
      cases hcs : splitOnNl cs with
      | nil => exact absurd hcs (splitOnNl_ne_nil cs)
      | cons l ls =>
        rw [ih, hcs]
        simp

theorem splitOnNl_of_nlFree {a : List Char} (h : nlFree a = true) :
    splitOnNl a = [a] := by
  induction a with
  | nil => rfl
  | cons c cs ih =>
    simp only [nlFree, List.all_cons, Bool.and_eq_true, bne_iff_ne, ne_eq] at h
    have hcs : splitOnNl cs = [cs] := ih (by simp [nlFree, List.all_eq_true] at h ⊢; exact h.2)
    simp only [splitOnNl, h.1, if_false, hcs]

theorem nlFree_of_mem_splitOnNl {a l : List Char} (h : l ∈ splitOnNl a) :
    nlFree l = true := by
  induction a generalizing l with
  | nil =>
    simp only [splitOnNl, List.mem_singleton] at h
    simp [h, nlFree]
  | cons c cs ih =>
    by_cases hc : c = '\n'
    · simp only [splitOnNl, hc, if_true, List.mem_cons] at h
      rcases h with rfl | h
      · simp [nlFree]
      · exact ih h
    · simp only [splitOnNl, hc, if_false] at h
      cases hcs : splitOnNl cs with
      | nil => exact absurd hcs (splitOnNl_ne_nil cs)
      | cons l0 ls0 =>
        rw [hcs] at h
        rcases List.mem_cons.mp h with rfl | h
        · have h0 : nlFree l0 = true := ih (by rw [hcs]; exact List.mem_cons_self l0 ls0)
          simp only [nlFree, List.all_cons, Bool.and_eq_true, bne_iff_ne, ne_eq]
          exact ⟨hc, by simpa [nlFree] using h0⟩
        · exact ih (by rw [hcs]; exact List.mem_cons_of_mem l0 h)

theorem joinNl_cons_of_ne_nil (l : List Char) {ls : List (List Char)}
    (h : ls ≠ []) : joinNl (l :: ls) = l ++ '\n' :: joinNl ls := by
  cases ls with
  | nil => exact absurd rfl h
  | cons l' ls' => rfl

theorem splitOnNl_joinNl :
    ∀ (ls : List (List Char)), ls ≠ [] →
      splitOnNl (joinNl ls) = ls.flatMap splitOnNl
  | [], h => absurd rfl h
  | [l], _ => by simp [joinNl]
  | l :: l' :: ls, _ => by
    have ih := splitOnNl_joinNl (l' :: ls) (by simp)
    rw [joinNl_cons_of_ne_nil l (by simp), splitOnNl_append_nl, ih]
    simp [List.flatMap_cons]

theorem flatMap_splitOnNl_of_nlFree {ls : List (List Char)}
    (h : ∀ l ∈ ls, nlFree l = true) : ls.flatMap splitOnNl = ls := by
  induction ls with
  | nil => rfl
  | cons l ls ih =>
    rw [List.flatMap_cons, splitOnNl_of_nlFree (h l (List.mem_cons_self l ls)),
      ih (fun x hx => h x (List.mem_cons_of_mem l hx))]
    rfl

theorem joinNl_splitOnNl (a : List Char) : joinNl (splitOnNl a) = a := by
  induction a with
  | nil => rfl
  | cons c cs ih =>
    by_cases hc : c = '\n'
    · rw [hc]
      simp only [splitOnNl, if_true]
      rw [joinNl_cons_of_ne_nil [] (splitOnNl_ne_nil cs), ih]
      rfl
    · simp only [splitOnNl, hc, if_false]
      cases hcs : splitOnNl cs with
      | nil => exact absurd hcs (splitOnNl_ne_nil cs)
      | cons l0 ls0 =>
        rw [hcs] at ih
        cases ls0 with
        | nil => simpa [joinNl] using congrArg (c :: ·) ih
        | cons l1 ls1 =>
          rw [joinNl_cons_of_ne_nil (c :: l0) (by simp)]
          rw [joinNl_cons_of_ne_nil l0 (by simp)] at ih
          simpa using congrArg (c :: ·) ih

theorem joinNl_append {ls ms : List (List Char)} (hls : ls ≠ []) (hms : ms ≠ []) :
    joinNl (ls ++ ms) = joinNl ls ++ '\n' :: joinNl ms := by
  induction ls with
  | nil => exact absurd rfl hls
  | cons l ls ih =>
    cases ls with
    | nil => simpa using joinNl_cons_of_ne_nil l hms
    | cons l' ls' =>
      rw [List.cons_append, joinNl_cons_of_ne_nil l (by simp),
        joinNl_cons_of_ne_nil l (by simp), ih (by simp)]
      simp

/-! Infrastructure lemmas about trimming and the sentinel test. -/

theorem dropWhile_dropWhile_of_imp {α : Type} {p q : α → Bool}
    (h : ∀ c, q c = true → p c = true) :
    ∀ x : List α, (x.dropWhile q).dropWhile p = x.dropWhile p
  | [] => rfl
  | c :: x => by
    by_cases hq : q c = true
    · rw [List.dropWhile_cons, if_pos hq, List.dropWhile_cons, if_pos (h c hq)]
      exact dropWhile_dropWhile_of_imp h x
    · rw [List.dropWhile_cons, if_neg hq]

theorem trimRightCR_reverse (l : List Char) :
    (trimRightCR l).reverse = l.reverse.dropWhile (fun c => c == '\r') := by
  rw [trimRightCR, List.reverse_reverse]

theorem trimRightCR_idem (l : List Char) :
    trimRightCR (trimRightCR l) = trimRightCR l := by
  rw [trimRightCR, trimRightCR_reverse,
    dropWhile_dropWhile_of_imp (fun c hc => hc) l.reverse]
  rfl

theorem trimRightCR_prefix_self (l : List Char) : trimRightCR l <+: l := by
  have h : l.reverse.dropWhile (fun c => c == '\r') <:+ l.reverse :=
    List.dropWhile_suffix _
  have h2 := List.reverse_prefix.mpr h
  rwa [List.reverse_reverse] at h2

theorem nlFree_of_sub {l m : List Char} (h : l <+: m) (hm : nlFree m = true) :
    nlFree l = true := by
  rw [nlFree, List.all_eq_true] at hm ⊢
  exact fun x hx => hm x (h.sublist.subset hx)

theorem nlFree_trimRightCR {l : List Char} (h : nlFree l = true) :
    nlFree (trimRightCR l) = true :=
  nlFree_of_sub (trimRightCR_prefix_self l) h

theorem isSentinelLine_iff {l : List Char} :
    isSentinelLine l = true ↔ "# Proxy Setting".toList <+: l := by
  rw [isSentinelLine]
  exact List.isPrefixOf_iff_prefix

theorem isSentinelLine_trimRightCR {l : List Char}
    (h : isSentinelLine l = false) : isSentinelLine (trimRightCR l) = false := by
  rw [Bool.eq_false_iff] at h ⊢
  intro ht
  exact h (isSentinelLine_iff.mpr
    ((isSentinelLine_iff.mp ht).trans (trimRightCR_prefix_self l)))

theorem trimSpace_trimRightCR (l : List Char) :
    trimSpace (trimRightCR l) = trimSpace l := by
  rw [trimSpace, trimSpace, trimRightCR_reverse,
    dropWhile_dropWhile_of_imp (fun c hc => by
      have : c = '\r' := by simpa using hc
      rw [this]; rfl) l.reverse]

theorem nlFree_append {a b : List Char} (ha : nlFree a = true)
    (hb : nlFree b = true) : nlFree (a ++ b) = true := by
  rw [nlFree, List.all_append]
  rw [nlFree] at ha hb
  simp [ha, hb]

/-! Infrastructure lemmas about the filter pass of the script-block merger. -/

theorem sentState_nil (b : Bool) : sentState b [] = b := rfl

theorem sentState_cons (b : Bool) (l : List Char) (ls : List (List Char)) :
    sentState b (l :: ls) = sentState (if isSentinelLine l then !b else b) ls := rfl

theorem removeProxyBlock_append :
    ∀ (xs : List (List Char)) (b : Bool) (ys : List (List Char)),
      removeProxyBlock b (xs ++ ys) =
        removeProxyBlock b xs ++ removeProxyBlock (sentState b xs) ys
  | [], b, ys => rfl
  | l :: xs, b, ys => by
    by_cases hs : isSentinelLine l = true
    · simp only [List.cons_append, removeProxyBlock, hs, if_true,
        sentState_cons]
      exact removeProxyBlock_append xs (!b) ys
    · have hs' : isSentinelLine l = false := Bool.eq_false_iff.mpr hs
      by_cases hb : b = true
      · subst hb
        simp only [List.cons_append, removeProxyBlock, hs', sentState_cons]
        simp only [Bool.false_eq_true, if_false, if_true]
        exact removeProxyBlock_append xs true ys
      · have hb' : b = false := by simpa using hb
        subst hb'
        simp only [List.cons_append, removeProxyBlock, sentState_cons]
        simp only [hs', Bool.false_eq_true, if_false, List.cons_append]
        rw [List.append_eq, removeProxyBlock_append xs false ys]

theorem mem_removeProxyBlock :
    ∀ {b : Bool} {ls : List (List Char)} {l : List Char},
      l ∈ removeProxyBlock b ls →
      isSentinelLine l = false ∧ trimRightCR l = l := by
  intro b ls
  induction ls generalizing b with
  | nil => intro l h; simp [removeProxyBlock] at h
  | cons x xs ih =>
    intro l h
    by_cases hs : isSentinelLine x = true
    · rw [removeProxyBlock, if_pos hs] at h
      exact ih h
    · have hs' : isSentinelLine x = false := Bool.eq_false_iff.mpr hs
      rw [removeProxyBlock, if_neg hs] at h
      by_cases hb : b = true
      · rw [if_pos hb] at h
        exact ih h
      · have hb' : b = false := by simpa using hb
        rw [hb'] at h
        simp only [if_false, List.mem_cons, Bool.false_eq_true] at h
        rcases h with rfl | h
        · exact ⟨isSentinelLine_trimRightCR hs', trimRightCR_idem x⟩
        · exact ih h

theorem removeProxyBlock_eq_self {ls : List (List Char)}
    (h : ∀ l ∈ ls, isSentinelLine l = false ∧ trimRightCR l = l) :
    removeProxyBlock false ls = ls := by
  induction ls with
  | nil => rfl
  | cons x xs ih =>
    have hx := h x (List.mem_cons_self x xs)
    rw [removeProxyBlock, if_neg (by simp [hx.1]), if_neg (by simp), hx.2,
      ih (fun l hl => h l (List.mem_cons_of_mem x hl))]

theorem sentState_eq_self {ls : List (List Char)} (b : Bool)
    (h : ∀ l ∈ ls, isSentinelLine l = false) : sentState b ls = b := by
  induction ls with
  | nil => rfl
  | cons x xs ih =>
    rw [sentState_cons, if_neg (by simp [h x (List.mem_cons_self x xs)])]
    exact ih (fun l hl => h l (List.mem_cons_of_mem x hl))

theorem removeProxyBlock_length_le :
    ∀ (b : Bool) (ls : List (List Char)),
      (removeProxyBlock b ls).length ≤ ls.length
  | _, [] => Nat.le_refl 0
  | b, l :: ls => by
    by_cases hs : isSentinelLine l = true
    · rw [removeProxyBlock, if_pos hs]
      exact Nat.le_succ_of_le (removeProxyBlock_length_le (!b) ls)
    · rw [removeProxyBlock, if_neg hs]
      by_cases hb : b = true
      · rw [if_pos hb]
        exact Nat.le_succ_of_le (removeProxyBlock_length_le b ls)
      · rw [if_neg hb]
        simpa using removeProxyBlock_length_le b ls

theorem clean_of_removeProxyBlock_eq {ls : List (List Char)}
    (h : removeProxyBlock false ls = ls) :
    ∀ l ∈ ls, isSentinelLine l = false ∧ trimRightCR l = l := by
  induction ls with
  | nil => intro l hl; simp at hl
  | cons x xs ih =>
    by_cases hs : isSentinelLine x = true
    · exfalso
      rw [removeProxyBlock, if_pos hs] at h
      have hlen := removeProxyBlock_length_le (!false) xs
      rw [h] at hlen
      simp at hlen
    · rw [removeProxyBlock, if_neg hs, if_neg (by simp)] at h
      have hx : trimRightCR x = x := (List.cons_eq_cons.mp h).1
      have hxs : removeProxyBlock false xs = xs := (List.cons_eq_cons.mp h).2
      intro l hl
      rcases List.mem_cons.mp hl with rfl | hl
      · exact ⟨Bool.eq_false_iff.mpr hs, hx⟩
      · exact ih hxs l hl

theorem removeProxyBlock_eq_map :
    ∀ (b : Bool) (ls : List (List Char)),
      removeProxyBlock b ls = (keptOutsideBlock b ls).map trimRightCR
  | _, [] => rfl
  | b, l :: ls => by
    by_cases hs : isSentinelLine l = true
    · rw [removeProxyBlock, if_pos hs, keptOutsideBlock, if_pos hs]
      exact removeProxyBlock_eq_map (!b) ls
    · rw [removeProxyBlock, if_neg hs, keptOutsideBlock, if_neg hs]
      by_cases hb : b = true
      · rw [if_pos hb, if_pos hb]
        exact removeProxyBlock_eq_map b ls
      · rw [if_neg hb, if_neg hb, List.map_cons]
        rw [removeProxyBlock_eq_map b ls]

/-! Infrastructure lemmas about the separator and the managed block. -/

theorem addSeparator_cases (ls : List (List Char)) :
    addSeparator ls = ls ∨ addSeparator ls = ls ++ [[]] := by
  rw [addSeparator]
  cases h : ls.getLast? with
  | none => exact Or.inl rfl
  | some l =>
    by_cases hl : l = []
    · simp [hl]
    · simp [hl]

theorem addSeparator_idem (ls : List (List Char)) :
    addSeparator (addSeparator ls) = addSeparator ls := by
  rcases addSeparator_cases ls with h | h
  · rw [h, h]
  · rw [h]
    rw [addSeparator, List.getLast?_concat]
    simp

theorem mem_addSeparator {ls : List (List Char)} {x : List Char}
    (h : x ∈ addSeparator ls) : x ∈ ls ∨ x = [] := by
  rcases addSeparator_cases ls with he | he <;> rw [he] at h
  · exact Or.inl h
  · rcases List.mem_append.mp h with h | h
    · exact Or.inl h
    · simp at h
      exact Or.inr h

theorem isSentinelLine_dollar (s t : List Char) :
    isSentinelLine ("$proxy = \"http://".toList ++ s ++ t) = false := by
  have h : "$proxy = \"http://".toList ++ s ++ t =
      '$' :: ("proxy = \"http://".toList ++ s ++ t) := rfl
  rw [h, isSentinelLine]
  have h2 : "# Proxy Setting".toList = '#' :: "# Proxy Setting".toList.tail := rfl
  rw [h2]
  simp [List.isPrefixOf]

theorem removeProxyBlock_proxyBlockLines (s : List Char) :
    removeProxyBlock false (proxyBlockLines s) = [] := by
  rw [proxyBlockLines]
  rw [removeProxyBlock, if_pos (by decide)]
  rw [removeProxyBlock, if_neg (by rw [isSentinelLine_dollar]; exact Bool.false_ne_true),
    if_pos (by decide)]
  rw [removeProxyBlock, if_neg (by decide), if_pos (by decide)]
  rw [removeProxyBlock, if_neg (by decide), if_pos (by decide)]
  rw [removeProxyBlock, if_neg (by decide), if_pos (by decide)]
  rw [removeProxyBlock, if_pos (by decide)]
  rfl

theorem nlFree_proxyBlockLines {s : List Char} (hs : nlFree s = true) :
    ∀ l ∈ proxyBlockLines s, nlFree l = true := by
  intro l hl
  rw [proxyBlockLines] at hl
  simp only [List.mem_cons, List.not_mem_nil, or_false] at hl
  rcases hl with rfl | rfl | rfl | rfl | rfl | rfl
  · decide
  · exact nlFree_append (nlFree_append (by decide) hs) (by decide)
  · decide
  · decide
  · decide
  · decide

theorem splitOnNl_proxyBlock {s : List Char} (hs : nlFree s = true) :
    splitOnNl (proxyBlock s) = proxyBlockLines s := by
  rw [proxyBlock, splitOnNl_joinNl _ (by rw [proxyBlockLines]; simp)]
  exact flatMap_splitOnNl_of_nlFree (nlFree_proxyBlockLines hs)

/-! Unfolding equations and element facts for the two line mergers. -/

theorem updPS_true_eq (s c : List Char) :
    updatePowerShellProfile s true c =
      joinNl (addSeparator (removeProxyBlock false (splitOnNl c)) ++
        [proxyBlock s]) := rfl

theorem updPS_false_eq (s c : List Char) :
    updatePowerShellProfile s false c =
      joinNl (removeProxyBlock false (splitOnNl c)) := rfl

theorem nlFree_removeProxyBlock {ls : List (List Char)}
    (h : ∀ x ∈ ls, nlFree x = true) :
    ∀ (b : Bool), ∀ l ∈ removeProxyBlock b ls, nlFree l = true := by
  induction ls with
  | nil => intro b l hl; simp [removeProxyBlock] at hl
  | cons x xs ih =>
    intro b l hl
    have hxs : ∀ y ∈ xs, nlFree y = true :=
      fun y hy => h y (List.mem_cons_of_mem x hy)
    by_cases hs : isSentinelLine x = true
    · rw [removeProxyBlock, if_pos hs] at hl
      exact ih hxs (!b) l hl
    · rw [removeProxyBlock, if_neg hs] at hl
      by_cases hb : b = true
      · rw [if_pos hb] at hl
        exact ih hxs b l hl
      · have hb' : b = false := by simpa using hb
        rw [hb'] at hl
        simp only [if_false, List.mem_cons, Bool.false_eq_true] at hl
        rcases hl with rfl | hl
        · exact nlFree_trimRightCR (h x (List.mem_cons_self x xs))
        · exact ih hxs false l hl

theorem nlFree_addSeparator {ls : List (List Char)}
    (h : ∀ x ∈ ls, nlFree x = true) :
    ∀ l ∈ addSeparator ls, nlFree l = true := by
  intro l hl
  rcases mem_addSeparator hl with h' | rfl
  · exact h l h'
  · decide

theorem clean_addSeparator {ls : List (List Char)}
    (h : ∀ x ∈ ls, isSentinelLine x = false ∧ trimRightCR x = x) :
    ∀ l ∈ addSeparator ls, isSentinelLine l = false ∧ trimRightCR l = l := by
  intro l hl
  rcases mem_addSeparator hl with h' | rfl
  · exact h l h'
  · exact ⟨by decide, rfl⟩

theorem npm_true_eq (s c : List Char) :
    setNpmProxy s true c =
      joinNl (npmFilterLines (splitOnNl c) ++ [npmProxyLine s]) ++ ['\n'] := by
  rw [setNpmProxy]
  simp

theorem npm_false_eq (s c : List Char) :
    setNpmProxy s false c =
      if npmFilterLines (splitOnNl c) = [] then []
      else joinNl (npmFilterLines (splitOnNl c)) ++ ['\n'] := rfl

theorem nlFree_npmFilterLines {ls : List (List Char)}
    (h : ∀ x ∈ ls, nlFree x = true) :
    ∀ l ∈ npmFilterLines ls, nlFree l = true := by
  intro l hl
  rw [npmFilterLines] at hl
  rcases List.mem_map.mp hl with ⟨l0, hl0, rfl⟩
  exact nlFree_trimRightCR (h l0 (List.mem_filter.mp hl0).1)

/-! Infrastructure lemmas for the settings-map merger. -/

theorem lookupKey_filterOut (m : SettingsDoc) (k : List Char) :
    lookupKey (m.filter (fun p => !(p.1 = httpProxyKey : Bool))) k =
      if k = httpProxyKey then none else lookupKey m k := by
  induction m with
  | nil =>
    by_cases hk : k = httpProxyKey <;> simp [lookupKey, hk]
  | cons p m ih =>
    obtain ⟨k0, v⟩ := p
    rw [List.filter_cons]
    by_cases h0 : k0 = httpProxyKey
    · rw [if_neg (by simp [h0]), ih]
      by_cases hk : k = httpProxyKey
      · rw [if_pos hk, if_pos hk]
      · rw [if_neg hk, if_neg hk, lookupKey,
          if_neg (fun he => hk (he.symm.trans h0))]
    · rw [if_pos (by simp [h0])]
      by_cases hk0 : k0 = k
      · have hk : ¬(k = httpProxyKey) := fun he => h0 (hk0.trans he)
        simp [lookupKey, hk0, hk]
      · simp only [lookupKey, hk0, if_false, ih]

theorem lookupKey_append (xs ys : SettingsDoc) (k : List Char) :
    lookupKey (xs ++ ys) k =
      match lookupKey xs k with
      | some v => some v
      | none => lookupKey ys k := by
  induction xs with
  | nil => simp [lookupKey]
  | cons p xs ih =>
    obtain ⟨k0, v⟩ := p
    by_cases hk0 : k0 = k
    · simp [lookupKey, hk0]
    · simp only [List.cons_append, lookupKey, hk0, if_false, List.append_eq, ih]

/-! Infrastructure lemmas for the multi-surface apply loop. -/

theorem surfStep_eq (mask flag : Nat) (name : List Char) (r : Option (List Char))
    (acc : List (List Char) × List (List Char)) :
    surfStep mask flag name r acc =
      (acc.1 ++ errPart mask flag name r, acc.2 ++ succPart mask flag name r) := by
  by_cases h : mask &&& flag ≠ 0
  · cases r <;> simp [surfStep, errPart, succPart, h]
  · simp [surfStep, errPart, succPart, h]

theorem applyProxySettings_eq (mask : Nat) (r1 r2 r3 r4 : Option (List Char)) :
    applyProxySettings mask r1 r2 r3 r4 =
      (errPart mask ENV_SYSTEM sysName r1 ++ (errPart mask ENV_POWERSHELL psName r2 ++
         (errPart mask ENV_VSCODE vsName r3 ++ errPart mask ENV_NPM npmName r4)),
       succPart mask ENV_SYSTEM sysName r1 ++ (succPart mask ENV_POWERSHELL psName r2 ++
         (succPart mask ENV_VSCODE vsName r3 ++ succPart mask ENV_NPM npmName r4))) := by
  rw [applyProxySettings, surfStep_eq, surfStep_eq, surfStep_eq, surfStep_eq]
  simp [List.append_assoc]

theorem part_length (mask flag : Nat) (name : List Char) (r : Option (List Char)) :
    (errPart mask flag name r).length + (succPart mask flag name r).length =
      if mask &&& flag ≠ 0 then 1 else 0 := by
  by_cases h : mask &&& flag ≠ 0
  · cases r <;> simp [errPart, succPart, h]
  · simp [errPart, succPart, h]

theorem mem_succPart {mask flag : Nat} {name x : List Char}
    {r : Option (List Char)} (h : x ∈ succPart mask flag name r) : x = name := by
  unfold succPart at h
  by_cases hm : mask &&& flag ≠ 0
  · rw [if_pos hm] at h
    cases r with
    | some e => simp at h
    | none => simpa using h
  · rw [if_neg hm] at h
    simp at h

/-! Claim theorems. -/

/-- C2: in toggle mode, an active proxy equal to the candidate gateway
endpoint (gateway:10808) yields Disable; an active proxy different from
the candidate yields Update to the candidate endpoint; an inactive proxy
yields Enable with the candidate endpoint. -/
theorem C2_reconcileToggle_decision (cur gw : List Char) :
    (cur ≠ [] → cur = gw ++ ":10808".toList →
      reconcileToggle cur gw = (ProxyAction.Disable, [])) ∧
    (cur ≠ [] → cur ≠ gw ++ ":10808".toList →
      reconcileToggle cur gw = (ProxyAction.Update, gw ++ ":10808".toList)) ∧
    (cur = [] →
      reconcileToggle cur gw = (ProxyAction.Enable, gw ++ ":10808".toList)) := by
  refine ⟨?_, ?_, ?_⟩
  · intro h1 h2
    simp only [reconcileToggle]
    rw [if_pos h1, if_pos h2]
  · intro h1 h2
    simp only [reconcileToggle]
    rw [if_pos h1, if_neg h2]
  · intro h1
    simp only [reconcileToggle]
    rw [if_neg (fun hc => hc h1)]

theorem C2_reconcileToggle_decision_witness :
    ("10.0.0.1:10808".toList ≠ ([] : List Char)) ∧
    "10.0.0.1:10808".toList = "10.0.0.1".toList ++ ":10808".toList ∧
    reconcileToggle ("10.0.0.1:10808".toList) ("10.0.0.1".toList) =
      (ProxyAction.Disable, []) :=
  ⟨by decide, by decide,
    (C2_reconcileToggle_decision ("10.0.0.1:10808".toList) ("10.0.0.1".toList)).1
      (by decide) (by decide)⟩

/-- C5 counterexample: the whitespace-only input " " is none of "", "A",
"a" and contains no digit characters, so the claim predicts the empty
mask from the character scan, but the selector trims the input first and
returns the full mask. -/
theorem C5_parseEnvironmentSelection_counterexample :
    parseEnvironmentSelection (" ".toList) =
        (ENV_SYSTEM ||| ENV_POWERSHELL ||| ENV_VSCODE ||| ENV_NPM) ∧
    envScanFlags (" ".toList) = 0 ∧
    " ".toList ≠ ([] : List Char) ∧ " ".toList ≠ ['A'] ∧ " ".toList ≠ ['a'] := by
  decide

/-- C5 (amended): after trimming surrounding whitespace, an empty input
or one that lowercases to "a" yields the full mask; any other input
yields the OR of the flags of its characters '1'..'4', with other
characters ignored; in particular "13" selects SYSTEM and VSCODE, and
"xyz" selects nothing. -/
theorem C5_parseEnvironmentSelection_spec (input : List Char) :
    (trimSpace input = [] ∨ (trimSpace input).map Char.toLower = ['a'] →
      parseEnvironmentSelection input =
        (ENV_SYSTEM ||| ENV_POWERSHELL ||| ENV_VSCODE ||| ENV_NPM)) ∧
    (trimSpace input ≠ [] → (trimSpace input).map Char.toLower ≠ ['a'] →
      parseEnvironmentSelection input = envScanFlags (trimSpace input)) ∧
    parseEnvironmentSelection ("13".toList) = (ENV_SYSTEM ||| ENV_VSCODE) ∧
    parseEnvironmentSelection ("xyz".toList) = 0 ∧
    parseEnvironmentSelection [] =
      (ENV_SYSTEM ||| ENV_POWERSHELL ||| ENV_VSCODE ||| ENV_NPM) ∧
    parseEnvironmentSelection ("A".toList) =
      (ENV_SYSTEM ||| ENV_POWERSHELL ||| ENV_VSCODE ||| ENV_NPM) ∧
    parseEnvironmentSelection ("a".toList) =
      (ENV_SYSTEM ||| ENV_POWERSHELL ||| ENV_VSCODE ||| ENV_NPM) := by
  refine ⟨?_, ?_, by decide, by decide, by decide, by decide, by decide⟩
  · intro h
    simp only [parseEnvironmentSelection]
    rw [if_pos h]
  · intro h1 h2
    simp only [parseEnvironmentSelection]
    rw [if_neg (not_or.mpr ⟨h1, h2⟩)]

theorem C5_parseEnvironmentSelection_spec_witness :
    (trimSpace ("24".toList) ≠ []) ∧
    ((trimSpace ("24".toList)).map Char.toLower ≠ ['a']) ∧
    parseEnvironmentSelection ("24".toList) = envScanFlags (trimSpace ("24".toList)) :=
  ⟨by decide, by decide,
    (C5_parseEnvironmentSelection_spec ("24".toList)).2.1 (by decide) (by decide)⟩

/-- C7: a missing settings file, an empty settings file, and a settings
file the parser rejects all leave the settings map empty; the parse error
is swallowed, never propagated. -/
theorem C7_loadVSCodeSettings_empty (parseDoc : List Char → Option SettingsDoc) :
    loadVSCodeSettings parseDoc none = [] ∧
    loadVSCodeSettings parseDoc (some []) = [] ∧
    ∀ data : List Char, parseDoc data = none →
      loadVSCodeSettings parseDoc (some data) = [] := by
  refine ⟨rfl, rfl, ?_⟩
  intro data h
  simp only [loadVSCodeSettings, h, ite_self]

theorem C7_loadVSCodeSettings_empty_witness :
    ((fun _ : List Char => (none : Option SettingsDoc)) ("notjson".toList) = none) ∧
    loadVSCodeSettings (fun _ => none) (some ("notjson".toList)) = [] :=
  ⟨rfl, (C7_loadVSCodeSettings_empty (fun _ => none)).2.2 ("notjson".toList) rfl⟩

/-- C10: in the filter pass of the script-block merger any line that
merely starts with "# Proxy Setting" — trailing user text included —
toggles the inside-block state and is dropped, and no output line starts
with the sentinel. -/
theorem C10_sentinel_toggle (suffix : List Char) (b : Bool)
    (ls : List (List Char)) :
    removeProxyBlock b (("# Proxy Setting".toList ++ suffix) :: ls) =
      removeProxyBlock (!b) ls ∧
    ∀ l ∈ removeProxyBlock b ls, isSentinelLine l = false := by
  constructor
  · rw [removeProxyBlock,
      if_pos (isSentinelLine_iff.mpr ( List.prefix_append _ _))]
  · exact fun l hl => (mem_removeProxyBlock hl).1

theorem C10_sentinel_toggle_witness :
    removeProxyBlock false
        (("# Proxy Setting".toList ++ " kept by the user".toList) ::
          ["keep".toList]) =
      removeProxyBlock (!false) ["keep".toList] :=
  (C10_sentinel_toggle (" kept by the user".toList) false ["keep".toList]).1

/-- C6: the structured-settings merger touches only the reserved key:
enabling sets "http.proxy" to the string "http://" + server, disabling
removes it, and the value looked up at every other key is exactly the
input's value (so no other key is altered, dropped, or added). -/
theorem C6_setVSCodeProxy_frame (s : List Char) (settings : SettingsDoc)
    (k : List Char) :
    (k ≠ httpProxyKey → ∀ e : Bool,
      lookupKey (setVSCodeProxy s e settings) k = lookupKey settings k) ∧
    lookupKey (setVSCodeProxy s true settings) httpProxyKey =
      some (JsonValue.jstr ("http://".toList ++ s)) ∧
    lookupKey (setVSCodeProxy s false settings) httpProxyKey = none := by
  refine ⟨?_, ?_, ?_⟩
  · intro hk e
    cases e
    · simp only [setVSCodeProxy, Bool.false_eq_true, if_false]
      rw [lookupKey_filterOut, if_neg hk]
    · simp only [setVSCodeProxy, if_true]
      rw [lookupKey_append, lookupKey_filterOut, if_neg hk]
      cases h : lookupKey settings k with
      | some v => rfl
      | none =>
        simp only [lookupKey]
        rw [if_neg (show ¬(httpProxyKey = k) from fun he => hk he.symm)]
  · simp only [setVSCodeProxy, if_true]
    rw [lookupKey_append, lookupKey_filterOut, if_pos rfl]
    simp [lookupKey]
  · simp only [setVSCodeProxy, Bool.false_eq_true, if_false]
    rw [lookupKey_filterOut, if_pos rfl]

theorem C6_setVSCodeProxy_frame_witness :
    ("editor.fontSize".toList ≠ httpProxyKey) ∧
    lookupKey
        (setVSCodeProxy ("10.0.0.1:10808".toList) true
          [("editor.fontSize".toList, JsonValue.jnum 14)])
        ("editor.fontSize".toList) =
      lookupKey [("editor.fontSize".toList, JsonValue.jnum 14)]
        ("editor.fontSize".toList) :=
  ⟨by decide,
    (C6_setVSCodeProxy_frame ("10.0.0.1:10808".toList)
        [("editor.fontSize".toList, JsonValue.jnum 14)]
        ("editor.fontSize".toList)).1 (by decide) true⟩

/-- C8: the line-entry merger's filter pass leaves no line whose trimmed
form starts with "proxy=" and no line that is blank after trimming; when
enabling it appends exactly the single line "proxy=http://" + server at
the end; the serialized result ends with a newline whenever non-empty. -/
theorem C8_setNpmProxy_spec (s c : List Char) :
    (∀ l ∈ npmFilterLines (splitOnNl c),
      List.isPrefixOf ("proxy=".toList) (trimSpace l) = false ∧
        trimSpace l ≠ []) ∧
    setNpmProxy s true c =
      joinNl (npmFilterLines (splitOnNl c) ++ [npmProxyLine s]) ++ ['\n'] ∧
    npmProxyLine s = "proxy=http://".toList ++ s ∧
    (∀ e : Bool, setNpmProxy s e c ≠ [] →
      (setNpmProxy s e c).getLast? = some '\n') := by
  refine ⟨?_, npm_true_eq s c, rfl, ?_⟩
  · intro l hl
    rw [npmFilterLines] at hl
    rcases List.mem_map.mp hl with ⟨l0, hl0, rfl⟩
    have hk : keepNpm l0 = true := (List.mem_filter.mp hl0).2
    rw [keepNpm, Bool.and_eq_true, Bool.not_eq_true', Bool.not_eq_true'] at hk
    rw [trimSpace_trimRightCR]
    refine ⟨hk.1, fun he => ?_⟩
    have h2 := hk.2
    rw [he] at h2
    simp at h2
  · intro e he
    cases e
    · rw [npm_false_eq] at he ⊢
      by_cases h0 : npmFilterLines (splitOnNl c) = []
      · rw [if_pos h0] at he
        exact absurd rfl he
      · rw [if_neg h0]
        exact List.getLast?_concat _
    · rw [npm_true_eq]
      exact List.getLast?_concat _

theorem C8_setNpmProxy_spec_witness :
    setNpmProxy ("10.0.0.1:10808".toList) false ("registry=x".toList) ≠ [] ∧
    (setNpmProxy ("10.0.0.1:10808".toList) false
        ("registry=x".toList)).getLast? = some '\n' :=
  ⟨by decide,
    (C8_setNpmProxy_spec ("10.0.0.1:10808".toList) ("registry=x".toList)).2.2.2
      false (by decide)⟩

/-- C4 counterexample: the non-managed line "a\r" (not sentinel-prefixed)
is not present unaltered in the output of a disable application of the
script-block merger — its trailing carriage return is stripped. -/
theorem C4_mergers_frame_counterexample :
    isSentinelLine ("a\r".toList) = false ∧
    "a\r".toList ∈ splitOnNl ("a\r".toList) ∧
    "a\r".toList ∉
      splitOnNl (updatePowerShellProfile ("1.2.3.4:10808".toList) false
        ("a\r".toList)) := by
  decide

/-- C4 (amended): every non-managed line survives any enable or disable
application in its original order, but with trailing carriage returns
stripped: the script merger's output lines start with exactly the
CR-trimmed kept (outside-block) lines, and the line-entry merger's output
lines start with exactly the CR-trimmed lines that pass its filter (which
additionally drops lines blank after whitespace trimming). -/
theorem C4_mergers_frame (s : List Char) (e : Bool) (c : List Char) :
    ((keptOutsideBlock false (splitOnNl c)).map trimRightCR) <+:
      splitOnNl (updatePowerShellProfile s e c) ∧
    (((splitOnNl c).filter keepNpm).map trimRightCR) <+:
      splitOnNl (setNpmProxy s e c) := by
  have hnlc : ∀ x ∈ splitOnNl c, nlFree x = true :=
    fun x hx => nlFree_of_mem_splitOnNl hx
  constructor
  · rw [← removeProxyBlock_eq_map]
    have hnlC : ∀ l ∈ removeProxyBlock false (splitOnNl c), nlFree l = true :=
      nlFree_removeProxyBlock hnlc false
    cases e
    · rw [updPS_false_eq]
      by_cases h0 : removeProxyBlock false (splitOnNl c) = []
      · rw [h0]
        exact List.nil_prefix
      · rw [splitOnNl_joinNl _ h0, flatMap_splitOnNl_of_nlFree hnlC]
    · rw [updPS_true_eq]
      rw [splitOnNl_joinNl _ (by simp), List.flatMap_append,
        flatMap_splitOnNl_of_nlFree (nlFree_addSeparator hnlC)]
      rcases addSeparator_cases (removeProxyBlock false (splitOnNl c)) with h | h
      · rw [h]
        exact List.prefix_append _ _
      · rw [h, List.append_assoc]
        exact List.prefix_append _ _
  · show npmFilterLines (splitOnNl c) <+: splitOnNl (setNpmProxy s e c)
    have hnlT : ∀ l ∈ npmFilterLines (splitOnNl c), nlFree l = true :=
      nlFree_npmFilterLines hnlc
    cases e
    · rw [npm_false_eq]
      by_cases h0 : npmFilterLines (splitOnNl c) = []
      · rw [if_pos h0, h0]
        exact List.nil_prefix
      · rw [if_neg h0]
        have hseq : joinNl (npmFilterLines (splitOnNl c)) ++ ['\n'] =
            joinNl (npmFilterLines (splitOnNl c)) ++ '\n' :: [] := rfl
        rw [hseq, splitOnNl_append_nl, splitOnNl_joinNl _ h0,
          flatMap_splitOnNl_of_nlFree hnlT]
        exact List.prefix_append _ _
    · rw [npm_true_eq]
      have hseq : joinNl (npmFilterLines (splitOnNl c) ++ [npmProxyLine s]) ++ ['\n'] =
          joinNl (npmFilterLines (splitOnNl c) ++ [npmProxyLine s]) ++ '\n' :: [] := rfl
      rw [hseq, splitOnNl_append_nl, splitOnNl_joinNl _ (by simp),
        List.flatMap_append, flatMap_splitOnNl_of_nlFree hnlT, List.append_assoc]
      exact List.prefix_append _ _

/-- C3 counterexample: for the pre-enable content "a\r", enabling and then
immediately disabling yields "a\n", which differs from the original
beyond the blank-separator-line policy (the carriage return is gone). -/
theorem C3_roundtrip_counterexample :
    ¬ eqUpToTrailingBlank
        (updatePowerShellProfile ("1.2.3.4:10808".toList) false
          (updatePowerShellProfile ("1.2.3.4:10808".toList) true ("a\r".toList)))
        ("a\r".toList) := by
  decide

/-- C3 (amended): for every newline-free server and every pre-enable
content that the filter pass leaves untouched (no sentinel-prefixed lines
and no trailing carriage returns), enabling and then disabling restores
the pre-enable content up to the single blank-separator-line policy. -/
theorem C3_roundtrip_restores (s c : List Char) (hs : nlFree s = true)
    (hc : removeProxyBlock false (splitOnNl c) = splitOnNl c) :
    eqUpToTrailingBlank
      (updatePowerShellProfile s false (updatePowerShellProfile s true c)) c := by
  have hclean := clean_of_removeProxyBlock_eq hc
  have hnlc : ∀ x ∈ splitOnNl c, nlFree x = true :=
    fun x hx => nlFree_of_mem_splitOnNl hx
  rw [updPS_true_eq, hc, updPS_false_eq]
  rw [splitOnNl_joinNl _ (by simp), List.flatMap_append,
    flatMap_splitOnNl_of_nlFree (nlFree_addSeparator hnlc)]
  have hblock : List.flatMap [proxyBlock s] splitOnNl = proxyBlockLines s := by
    simp [splitOnNl_proxyBlock hs]
  rw [hblock, removeProxyBlock_append,
    removeProxyBlock_eq_self (clean_addSeparator hclean),
    sentState_eq_self false (fun l hl => (clean_addSeparator hclean l hl).1),
    removeProxyBlock_proxyBlockLines, List.append_nil]
  rcases addSeparator_cases (splitOnNl c) with h | h
  · rw [h, joinNl_splitOnNl]
    exact Or.inl rfl
  · rw [h, joinNl_append (splitOnNl_ne_nil c) (by simp), joinNl_splitOnNl]
    exact Or.inr (Or.inl rfl)

theorem C3_roundtrip_restores_witness :
    nlFree ("1.2.3.4:10808".toList) = true ∧
    removeProxyBlock false (splitOnNl ("line one".toList)) =
      splitOnNl ("line one".toList) ∧
    eqUpToTrailingBlank
      (updatePowerShellProfile ("1.2.3.4:10808".toList) false
        (updatePowerShellProfile ("1.2.3.4:10808".toList) true
          ("line one".toList)))
      ("line one".toList) :=
  ⟨by decide, by decide,
    C3_roundtrip_restores ("1.2.3.4:10808".toList) ("line one".toList)
      (by decide) (by decide)⟩

/-- C1 counterexample: with the proxy server string "\n# Proxy Setting"
(which contains a newline that makes a spliced block line itself start
with the sentinel), applying the script-block merger with enable=true
twice does not reproduce the output of the first application. -/
theorem C1_updatePowerShellProfile_idem_counterexample :
    updatePowerShellProfile ("\n# Proxy Setting".toList) true
        (updatePowerShellProfile ("\n# Proxy Setting".toList) true []) ≠
      updatePowerShellProfile ("\n# Proxy Setting".toList) true [] := by
  decide

/-- C1 (amended): for every file content, the script-block merger is
idempotent — enabling twice with the same newline-free server yields the
output of the first application byte for byte, and disabling twice (for
any server) yields the output of a single disable. -/
theorem C1_updatePowerShellProfile_idem (s c : List Char)
    (hs : nlFree s = true) :
    updatePowerShellProfile s true (updatePowerShellProfile s true c) =
      updatePowerShellProfile s true c ∧
    updatePowerShellProfile s false (updatePowerShellProfile s false c) =
      updatePowerShellProfile s false c := by
  have hclean : ∀ l ∈ removeProxyBlock false (splitOnNl c),
      isSentinelLine l = false ∧ trimRightCR l = l :=
    fun l hl => mem_removeProxyBlock hl
  have hnlC : ∀ l ∈ removeProxyBlock false (splitOnNl c), nlFree l = true :=
    nlFree_removeProxyBlock (fun x hx => nlFree_of_mem_splitOnNl hx) false
  constructor
  · simp only [updPS_true_eq]
    have hsplit : splitOnNl (joinNl
        (addSeparator (removeProxyBlock false (splitOnNl c)) ++ [proxyBlock s])) =
        addSeparator (removeProxyBlock false (splitOnNl c)) ++ proxyBlockLines s := by
      rw [splitOnNl_joinNl _ (by simp), List.flatMap_append,
        flatMap_splitOnNl_of_nlFree (nlFree_addSeparator hnlC)]
      simp [splitOnNl_proxyBlock hs]
    rw [hsplit, removeProxyBlock_append,
      removeProxyBlock_eq_self (clean_addSeparator hclean),
      sentState_eq_self false (fun l hl => (clean_addSeparator hclean l hl).1),
      removeProxyBlock_proxyBlockLines, List.append_nil, addSeparator_idem]
  · simp only [updPS_false_eq]
    by_cases h0 : removeProxyBlock false (splitOnNl c) = []
    · rw [h0]
      decide
    · rw [splitOnNl_joinNl _ h0, flatMap_splitOnNl_of_nlFree hnlC,
        removeProxyBlock_eq_self hclean]

theorem C1_updatePowerShellProfile_idem_witness :
    nlFree ("1.2.3.4:10808".toList) = true ∧
    (updatePowerShellProfile ("1.2.3.4:10808".toList) true
        (updatePowerShellProfile ("1.2.3.4:10808".toList) true
          ("hello".toList)) =
      updatePowerShellProfile ("1.2.3.4:10808".toList) true ("hello".toList) ∧
    updatePowerShellProfile ("1.2.3.4:10808".toList) false
        (updatePowerShellProfile ("1.2.3.4:10808".toList) false
          ("hello".toList)) =
      updatePowerShellProfile ("1.2.3.4:10808".toList) false ("hello".toList)) :=
  ⟨by decide,
    C1_updatePowerShellProfile_idem ("1.2.3.4:10808".toList) ("hello".toList)
      (by decide)⟩

/-- C9: in the apply loop, every surface selected by the mask is recorded
exactly once — its name in the success list on success, its prefixed
error message in the error list on failure — independently of every
other surface's outcome, unselected surfaces are never recorded as
successes, and the total number of recorded outcomes equals the number
of selected surfaces. -/
theorem C9_applyProxySettings_tolerant (mask : Nat)
    (rSys rPS rVS rNpm : Option (List Char)) :
    (mask &&& ENV_SYSTEM ≠ 0 → rSys = none →
      sysName ∈ (applyProxySettings mask rSys rPS rVS rNpm).2) ∧
    (mask &&& ENV_SYSTEM ≠ 0 → ∀ e, rSys = some e →
      sysName ++ ": ".toList ++ e ∈ (applyProxySettings mask rSys rPS rVS rNpm).1) ∧
    (mask &&& ENV_SYSTEM = 0 →
      sysName ∉ (applyProxySettings mask rSys rPS rVS rNpm).2) ∧
    (mask &&& ENV_POWERSHELL ≠ 0 → rPS = none →
      psName ∈ (applyProxySettings mask rSys rPS rVS rNpm).2) ∧
    (mask &&& ENV_POWERSHELL ≠ 0 → ∀ e, rPS = some e →
      psName ++ ": ".toList ++ e ∈ (applyProxySettings mask rSys rPS rVS rNpm).1) ∧
    (mask &&& ENV_POWERSHELL = 0 →
      psName ∉ (applyProxySettings mask rSys rPS rVS rNpm).2) ∧
    (mask &&& ENV_VSCODE ≠ 0 → rVS = none →
      vsName ∈ (applyProxySettings mask rSys rPS rVS rNpm).2) ∧
    (mask &&& ENV_VSCODE ≠ 0 → ∀ e, rVS = some e →
      vsName ++ ": ".toList ++ e ∈ (applyProxySettings mask rSys rPS rVS rNpm).1) ∧
    (mask &&& ENV_VSCODE = 0 →
      vsName ∉ (applyProxySettings mask rSys rPS rVS rNpm).2) ∧
    (mask &&& ENV_NPM ≠ 0 → rNpm = none →
      npmName ∈ (applyProxySettings mask rSys rPS rVS rNpm).2) ∧
    (mask &&& ENV_NPM ≠ 0 → ∀ e, rNpm = some e →
      npmName ++ ": ".toList ++ e ∈ (applyProxySettings mask rSys rPS rVS rNpm).1) ∧
    (mask &&& ENV_NPM = 0 →
      npmName ∉ (applyProxySettings mask rSys rPS rVS rNpm).2) ∧
    (applyProxySettings mask rSys rPS rVS rNpm).1.length +
        (applyProxySettings mask rSys rPS rVS rNpm).2.length =
      ((if mask &&& ENV_SYSTEM ≠ 0 then 1 else 0) +
        ((if mask &&& ENV_POWERSHELL ≠ 0 then 1 else 0) +
          ((if mask &&& ENV_VSCODE ≠ 0 then 1 else 0) +
            (if mask &&& ENV_NPM ≠ 0 then 1 else 0)))) := by
  refine ⟨?_, ?_, ?_, ?_, ?_, ?_, ?_, ?_, ?_, ?_, ?_, ?_, ?_⟩
  · intro h1 h2
    simp [applyProxySettings_eq, succPart, h1, h2]
  · intro h1 e he
    simp [applyProxySettings_eq, errPart, h1, he]
  · intro h0 hmem
    simp only [applyProxySettings_eq, List.mem_append] at hmem
    rcases hmem with h | h | h | h
    · unfold succPart at h
      rw [h0] at h
      simp at h
    · exact absurd (mem_succPart h) (by decide)
    · exact absurd (mem_succPart h) (by decide)
    · exact absurd (mem_succPart h) (by decide)
  · intro h1 h2
    simp [applyProxySettings_eq, succPart, h1, h2]
  · intro h1 e he
    simp [applyProxySettings_eq, errPart, h1, he]
  · intro h0 hmem
    simp only [applyProxySettings_eq, List.mem_append] at hmem
    rcases hmem with h | h | h | h
    · exact absurd (mem_succPart h) (by decide)
    · unfold succPart at h
      rw [h0] at h
      simp at h
    · exact absurd (mem_succPart h) (by decide)
    · exact absurd (mem_succPart h) (by decide)
  · intro h1 h2
    simp [applyProxySettings_eq, succPart, h1, h2]
  · intro h1 e he
    simp [applyProxySettings_eq, errPart, h1, he]
  · intro h0 hmem
    simp only [applyProxySettings_eq, List.mem_append] at hmem
    rcases hmem with h | h | h | h
    · exact absurd (mem_succPart h) (by decide)
    · exact absurd (mem_succPart h) (by decide)
    · unfold succPart at h
      rw [h0] at h
      simp at h
    · exact absurd (mem_succPart h) (by decide)
  · intro h1 h2
    simp [applyProxySettings_eq, succPart, h1, h2]
  · intro h1 e he
    simp [applyProxySettings_eq, errPart, h1, he]
  · intro h0 hmem
    simp only [applyProxySettings_eq, List.mem_append] at hmem
    rcases hmem with h | h | h | h
    · exact absurd (mem_succPart h) (by decide)
    · exact absurd (mem_succPart h) (by decide)
    · exact absurd (mem_succPart h) (by decide)
    · unfold succPart at h
      rw [h0] at h
      simp at h
  · rw [applyProxySettings_eq]
    simp only [List.length_append]
    have p1 := part_length mask ENV_SYSTEM sysName rSys
    have p2 := part_length mask ENV_POWERSHELL psName rPS
    have p3 := part_length mask ENV_VSCODE vsName rVS
    have p4 := part_length mask ENV_NPM npmName rNpm
    omega

theorem C9_applyProxySettings_tolerant_witness :
    psName ∈ (applyProxySettings 15 (some ("boom".toList)) none none none).2 ∧
    sysName ++ ": ".toList ++ "boom".toList ∈
      (applyProxySettings 15 (some ("boom".toList)) none none none).1 :=
  ⟨(C9_applyProxySettings_tolerant 15 (some ("boom".toList)) none none
      none).2.2.2.1 (by decide) rfl,
   (C9_applyProxySettings_tolerant 15 (some ("boom".toList)) none none
      none).2.1 (by decide) ("boom".toList) rfl⟩
